import Mathlib

/-!
Verification of the columnar chunk codec, the batch limit executor, the
expression-evaluation error context and the DAG request orchestration of
the coprocessor, as a shallow embedding.

Machine integers are modelled as `Nat` / `Int`; byte buffers as
`List Nat` with each element a byte value; `i64`/`u64`/floating-point
cells are identified with their little-endian bit patterns, so that a
"bit-identical" round trip of a scalar is exactly a round trip of its
pattern.  Accesses that panic in the original (out-of-range slicing,
unwrap on short reads) are modelled as `none` / error results.
-/

namespace TiKV

/-- Little-endian byte encoding of a natural number into `w` bytes
(the layout used by `write_u64::<LittleEndian>` and friends). -/
def leBytes (w v : Nat) : List Nat :=
  match w with
  | 0 => []
  | Nat.succ w' => (v % 256) :: leBytes w' (v / 256)

/-- Little-endian byte decoding, inverse of `leBytes`. -/
def leRead (bs : List Nat) : Nat :=
  match bs with
  | [] => 0
  | b :: rest => b + 256 * leRead rest

/-- Two's-complement reading of 8 little-endian bytes as an `i64`. -/
def decI64 (bs : List Nat) : Int :=
  let n := leRead bs
  if n < 2 ^ 63 then (n : Int) else (n : Int) - 2 ^ 64

/-- Bit pattern of an `i64` value (`v` interpreted modulo `2^64`). -/
def i64Pattern (v : Int) : Nat := (v % (2 ^ 64 : Int)).toNat

/-- Domain values stored by the boxed / interface encoding
(`coprocessor::codec::datum::Datum`).  Only the shape needed by the
chunk code is modelled: a null marker, scalars, and byte strings. -/
inductive Datum where
  | null
  | i64 (v : Int)
  | u64 (v : Nat)
  | f64 (pattern : Nat)
  | bytes (b : List Nat)
deriving Repr, DecidableEq

/-- `Column` from `coprocessor/codec/chunk.rs`: one column's values
across all rows, in one of three physical encodings.  `fixed_len > 0`
marks the fixed-width form. -/
structure Column where
  length : Nat
  null_cnt : Nat
  null_bitmap : List Nat
  var_offsets : List Nat
  data : List Nat
  fixed_len : Nat
  ifaces : List Datum
deriving Repr, DecidableEq

/-- The logical type tags distinguished by `Column::new` (the named
constants of `mysql::types` that its `match` arms test). -/
inductive TypeTag where
  | TINY | SHORT | INT24 | LONG | LONG_LONG | YEAR | FLOAT | DOUBLE
  | VARCHAR | VAR_STRING | STRING | BLOB | TINY_BLOB | MEDIUM_BLOB | LONG_BLOB
  | OTHER
deriving Repr, DecidableEq

namespace Column

/-- `Column::new_fixed_column` (capacity hints do not affect contents
and are dropped from the model). -/
def new_fixed_column (fixed_len : Nat) : Column :=
  { length := 0, null_cnt := 0, null_bitmap := [], var_offsets := []
    data := [], fixed_len := fixed_len, ifaces := [] }

/-- `Column::new_var_len_column`: starts with the single offset `0`. -/
def new_var_len_column : Column :=
  { length := 0, null_cnt := 0, null_bitmap := [], var_offsets := [0]
    data := [], fixed_len := 0, ifaces := [] }

/-- `Column::new_interface_column`. -/
def new_interface_column : Column :=
  { length := 0, null_cnt := 0, null_bitmap := [], var_offsets := []
    data := [], fixed_len := 0, ifaces := [] }

/-- `Column::new`: derives the physical encoding from the logical type
tag; every fixed-width family member, `FLOAT` included, gets an 8-byte
slot. -/
def new (tp : TypeTag) : Column :=
  match tp with
  | .TINY | .SHORT | .INT24 | .LONG | .LONG_LONG | .YEAR | .FLOAT | .DOUBLE =>
      new_fixed_column 8
  | .VARCHAR | .VAR_STRING | .STRING | .BLOB | .TINY_BLOB | .MEDIUM_BLOB
  | .LONG_BLOB => new_var_len_column
  | .OTHER => new_interface_column

/-- `Column::is_fixed`. -/
def is_fixed (c : Column) : Bool := c.fixed_len > 0

/-- `Column::is_varlen`. -/
def is_varlen (c : Column) : Bool := !c.var_offsets.isEmpty

/-- Null test of a bitmap at a row index: bit value 0 means null, a
missing byte reads as not-null (the source returns `false` where
upstream would panic). -/
def bitmapNull (bm : List Nat) (row_idx : Nat) : Bool :=
  match bm.get? (row_idx / 8) with
  | some null_byte => null_byte &&& (1 <<< (row_idx % 8)) == 0
  | none => false

/-- `Column::is_null`: consults the column's null bitmap. -/
def is_null (c : Column) (row_idx : Nat) : Bool :=
  bitmapNull c.null_bitmap row_idx

/-- `Column::append_null_bitmap`: grows the bitmap by one byte when the
current length crosses a byte boundary, then either sets the
not-null bit (`notNull`, the source's `on`, true) or counts a null. -/
def append_null_bitmap (c : Column) (notNull : Bool) : Column :=
  let idx := c.length / 8
  let bm := if c.null_bitmap.length ≤ idx then c.null_bitmap ++ [0] else c.null_bitmap
  if notNull then
    { c with null_bitmap := bm.set idx (bm.getD idx 0 ||| (1 <<< (c.length % 8))) }
  else
    { c with null_bitmap := bm, null_cnt := c.null_cnt + 1 }

/-- `Column::append_null`: a fixed column still advances the buffer by
`fixed_len` zero bytes; a var-length column repeats the previous
offset; a boxed column pushes an explicit null. -/
def append_null (c : Column) : Column :=
  let c := c.append_null_bitmap false
  let c :=
    if c.is_fixed then { c with data := c.data ++ List.replicate c.fixed_len 0 }
    else if c.is_varlen then
      { c with var_offsets := c.var_offsets ++ [c.var_offsets.getD c.length 0] }
    else { c with ifaces := c.ifaces ++ [Datum.null] }
  { c with length := c.length + 1 }

/-- `Column::finish_append_fixed`. -/
def finish_append_fixed (c : Column) : Column :=
  let c := c.append_null_bitmap true
  { c with length := c.length + 1 }

/-- `Column::append_i64`: 8 little-endian bytes of the two's-complement
pattern. -/
def append_i64 (c : Column) (v : Int) : Column :=
  finish_append_fixed { c with data := c.data ++ leBytes 8 (i64Pattern v) }

/-- `Column::get_i64`: slices `fixed_len` bytes at the `fixed_len`
stride and reads the first 8 as a little-endian `i64`; a slice that is
out of range or shorter than 8 bytes panics in the source and is
`none` here. -/
def get_i64 (c : Column) (idx : Nat) : Option Int :=
  let start := idx * c.fixed_len
  if start + c.fixed_len ≤ c.data.length ∧ 8 ≤ c.fixed_len then
    some (decI64 ((c.data.drop start).take 8))
  else none

/-- `Column::append_u64`. -/
def append_u64 (c : Column) (v : Nat) : Column :=
  finish_append_fixed { c with data := c.data ++ leBytes 8 (v % 2 ^ 64) }

/-- `Column::get_u64`. -/
def get_u64 (c : Column) (idx : Nat) : Option Nat :=
  let start := idx * c.fixed_len
  if start + c.fixed_len ≤ c.data.length ∧ 8 ≤ c.fixed_len then
    some (leRead ((c.data.drop start).take 8))
  else none

/-- `Column::append_f32`: writes only the 4 bytes of the `f32` bit
pattern (`pattern < 2^32`), regardless of the column's slot width. -/
def append_f32 (c : Column) (pattern : Nat) : Column :=
  finish_append_fixed { c with data := c.data ++ leBytes 4 (pattern % 2 ^ 32) }

/-- `Column::get_f32`: still indexes with the `fixed_len` stride and
reads the first 4 bytes of the slice as the `f32` bit pattern. -/
def get_f32 (c : Column) (idx : Nat) : Option Nat :=
  let start := idx * c.fixed_len
  if start + c.fixed_len ≤ c.data.length ∧ 4 ≤ c.fixed_len then
    some (leRead ((c.data.drop start).take 4))
  else none

/-- `Column::append_f64`: 8 bytes of the `f64` bit pattern. -/
def append_f64 (c : Column) (pattern : Nat) : Column :=
  finish_append_fixed { c with data := c.data ++ leBytes 8 (pattern % 2 ^ 64) }

/-- `Column::get_f64`. -/
def get_f64 (c : Column) (idx : Nat) : Option Nat :=
  let start := idx * c.fixed_len
  if start + c.fixed_len ≤ c.data.length ∧ 8 ≤ c.fixed_len then
    some (leRead ((c.data.drop start).take 8))
  else none

/-- `Column::finished_append_var`: pushes the new cumulative end offset
and marks the row not-null. -/
def finished_append_var (c : Column) : Column :=
  let c := c.append_null_bitmap true
  { c with var_offsets := c.var_offsets ++ [c.data.length], length := c.length + 1 }

/-- `Column::append_str` (strings are their byte sequences). -/
def append_str (c : Column) (s : List Nat) : Column :=
  finished_append_var { c with data := c.data ++ s }

/-- `Column::append_bytes`. -/
def append_bytes (c : Column) (b : List Nat) : Column :=
  finished_append_var { c with data := c.data ++ b }

/-- `Column::get_bytes`: slices `data[offsets[idx]..offsets[idx+1]]`;
panics modelled as `none`. -/
def get_bytes (c : Column) (idx : Nat) : Option (List Nat) :=
  match c.var_offsets.get? idx, c.var_offsets.get? (idx + 1) with
  | some s, some e =>
      if s ≤ e ∧ e ≤ c.data.length then some ((c.data.drop s).take (e - s)) else none
  | _, _ => none

/-- `Column::append_interface`. -/
def append_interface (c : Column) (item : Datum) : Column :=
  let c := { c with ifaces := c.ifaces ++ [item] }
  let c := c.append_null_bitmap true
  { c with length := c.length + 1 }

/-- Number of null rows of `c` among indices `[lo, hi)` (as reported by
the null bitmap). -/
def nullsBetween (c : Column) (lo hi : Nat) : Nat :=
  (List.range' lo (hi - lo)).countP (fun id => c.is_null id)

/-- `Column::truncate_to`: truncates data (and offsets for the
var-length form), subtracts the nulls found in the dropped range from
the null count, sets the new length and truncates the bitmap to
`num_rows / 8 + 1` bytes.  The out-of-range offset access of the
var-length branch panics in the source and is `none` here. -/
def truncate_to (c : Column) (num_rows : Nat) : Option Column :=
  (if c.is_fixed then some { c with data := c.data.take (c.fixed_len * num_rows) }
   else if c.is_varlen then
     match c.var_offsets.get? num_rows with
     | some toOff =>
         some { c with data := c.data.take toOff
                       var_offsets := c.var_offsets.take (num_rows + 1) }
     | none => none
   else some { c with ifaces := c.ifaces.take num_rows }).map
  fun c1 =>
    { c1 with null_cnt := c1.null_cnt - c1.nullsBetween num_rows c1.length
              length := num_rows
              null_bitmap := c1.null_bitmap.take (num_rows / 8 + 1) }

end Column


/-- `Chunk`: an ordered sequence of columns. -/
structure Chunk where
  columns : List Column
deriving Repr, DecidableEq

namespace Chunk

/-- `Chunk::new_chunk` (the initial-capacity constant only sizes
allocations and is dropped). -/
def new_chunk (tps : List TypeTag) : Chunk :=
  ⟨tps.map fun tp => Column.new tp⟩

/-- `Chunk::num_cols`. -/
def num_cols (ck : Chunk) : Nat := ck.columns.length

/-- `Chunk::num_rows`: reads the row count off column 0; a chunk with
no columns reports zero rows. -/
def num_rows (ck : Chunk) : Nat :=
  match ck.columns with
  | [] => 0
  | c :: _ => c.length

/-- `Chunk::truncate_to`: column-level truncation on every column. -/
def truncate_to (ck : Chunk) (num_rows : Nat) : Option Chunk :=
  (ck.columns.mapM fun (col : Column) => col.truncate_to num_rows).map Chunk.mk

end Chunk

/-- C8: appending `[null, "a", null, "bb"]` to a fresh VarLength column
yields offsets `[0, 0, 1, 1, 3]`, null-bitmap bits `[0, 1, 0, 1]`
(1 = not-null, so `is_null` reads true, false, true, false), data
`b"abb"`, length 4 and null count 2. -/
theorem c8_var_len_concrete_scenario :
    (((((Column.new_var_len_column).append_null).append_str [97]).append_null).append_str
        [98, 98]).var_offsets = [0, 0, 1, 1, 3] ∧
    (((((Column.new_var_len_column).append_null).append_str [97]).append_null).append_str
        [98, 98]).is_null 0 = true ∧
    (((((Column.new_var_len_column).append_null).append_str [97]).append_null).append_str
        [98, 98]).is_null 1 = false ∧
    (((((Column.new_var_len_column).append_null).append_str [97]).append_null).append_str
        [98, 98]).is_null 2 = true ∧
    (((((Column.new_var_len_column).append_null).append_str [97]).append_null).append_str
        [98, 98]).is_null 3 = false ∧
    (((((Column.new_var_len_column).append_null).append_str [97]).append_null).append_str
        [98, 98]).data = [97, 98, 98] ∧
    (((((Column.new_var_len_column).append_null).append_str [97]).append_null).append_str
        [98, 98]).length = 4 ∧
    (((((Column.new_var_len_column).append_null).append_str [97]).append_null).append_str
        [98, 98]).null_cnt = 2 := by
  decide

/-- C1 (failing case): a fresh `FLOAT` column is built with an 8-byte
slot, but `append_f32` writes only 4 bytes while `get_f32` slices with
the 8-byte stride.  Already after a single `append_f32` (bit pattern of
`1.0f32`), `get_f32 0` slices `data[0..8]` out of a 4-byte buffer — a
panic in the source, `none` here — and after a second append, row 1 is
likewise unreadable; the append/get round trip therefore fails for
`f32`. -/
theorem c1_float_round_trip_fails :
    ((Column.new TypeTag.FLOAT).append_f32 0x3f800000).get_f32 0 = none ∧
    (((Column.new TypeTag.FLOAT).append_f32 0x3f800000).append_f32 0x40000000).get_f32 1 =
      none ∧
    ((Column.new TypeTag.FLOAT).append_f32 0x3f800000).fixed_len = 8 ∧
    ((Column.new TypeTag.FLOAT).append_f32 0x3f800000).data.length = 4 := by
  decide

/-! ### Builder model for fixed-width columns (claim C10) -/

/-- One append operation on an 8-byte fixed-width column. -/
inductive FixedOp where
  | nullOp
  | i64Op (v : Int)
  | u64Op (v : Nat)
  | f64Op (p : Nat)
deriving Repr, DecidableEq

/-- Applies one append operation. -/
def applyFixedOp (c : Column) : FixedOp → Column
  | .nullOp => c.append_null
  | .i64Op v => c.append_i64 v
  | .u64Op v => c.append_u64 v
  | .f64Op p => c.append_f64 p

/-- A column obtained from a fresh 8-byte fixed-width column by a
sequence of append operations. -/
def buildFixed (ops : List FixedOp) : Column :=
  ops.foldl applyFixedOp (Column.new_fixed_column 8)

theorem leBytes_length (w v : Nat) : (leBytes w v).length = w := by
  induction w generalizing v with
  | zero => rfl
  | succ w ih => simp [leBytes, ih]

theorem and_shift_beq_zero (x j : Nat) : (x &&& (1 <<< j) == 0) = !x.testBit j := by
  rw [Nat.shiftLeft_eq, one_mul, Nat.and_two_pow]
  cases h : x.testBit j <;> simp [h, Nat.pos_iff_ne_zero]

namespace Column

theorem is_null_congr {c₁ c₂ : Column} (h : c₁.null_bitmap = c₂.null_bitmap) (i : Nat) :
    c₁.is_null i = c₂.is_null i := by
  simp [is_null, h]

theorem bitmapNull_eq_of_getElem? (bm : List Nat) (i b0 : Nat) (h : bm[i / 8]? = some b0) :
    bitmapNull bm i = !b0.testBit (i % 8) := by
  simp [bitmapNull, List.get?_eq_getElem?, h, and_shift_beq_zero]

theorem bitmapNull_eq_false_of_none (bm : List Nat) (i : Nat) (h : bm[i / 8]? = none) :
    bitmapNull bm i = false := by
  simp [bitmapNull, List.get?_eq_getElem?, h]

theorem append_null_bitmap_data (c : Column) (b : Bool) :
    (c.append_null_bitmap b).data = c.data := by
  cases b <;> rfl

theorem append_null_bitmap_len (c : Column) (b : Bool) :
    (c.append_null_bitmap b).length = c.length := by
  cases b <;> rfl

theorem append_null_bitmap_fixed_len (c : Column) (b : Bool) :
    (c.append_null_bitmap b).fixed_len = c.fixed_len := by
  cases b <;> rfl

theorem append_null_bitmap_var_offsets (c : Column) (b : Bool) :
    (c.append_null_bitmap b).var_offsets = c.var_offsets := by
  cases b <;> rfl

/-- The grown bitmap still has one byte per started group of 8 rows. -/
theorem append_null_bitmap_length (c : Column) (b : Bool)
    (hlen : c.null_bitmap.length = (c.length + 7) / 8) :
    (c.append_null_bitmap b).null_bitmap.length = (c.length + 1 + 7) / 8 := by
  unfold append_null_bitmap
  by_cases hpush : c.null_bitmap.length ≤ c.length / 8 <;>
    cases b <;> simp [hpush, List.length_set] <;> omega

/-- The byte holding an existing row keeps that row's bit across a
bitmap append. -/
theorem append_null_bitmap_getElem?_lt (c : Column) (b : Bool) (i : Nat)
    (hlen : c.null_bitmap.length = (c.length + 7) / 8) (hi : i < c.length) :
    ∃ b0 b1, c.null_bitmap[i / 8]? = some b0 ∧
      (c.append_null_bitmap b).null_bitmap[i / 8]? = some b1 ∧
      b1.testBit (i % 8) = b0.testBit (i % 8) := by
  have hidx : i / 8 < c.null_bitmap.length := by omega
  obtain ⟨b0, hb0⟩ : ∃ b0, c.null_bitmap[i / 8]? = some b0 :=
    ⟨c.null_bitmap.get ⟨i / 8, hidx⟩, by simp [List.getElem?_eq_getElem hidx]⟩
  unfold append_null_bitmap
  by_cases hpush : c.null_bitmap.length ≤ c.length / 8
  · have hne : i / 8 ≠ c.length / 8 := by omega
    have happ : (c.null_bitmap ++ [0])[i / 8]? = some b0 := by
      rw [List.getElem?_append_left hidx]; exact hb0
    cases b with
    | false => exact ⟨b0, b0, hb0, by simpa [hpush] using happ, rfl⟩
    | true =>
        refine ⟨b0, b0, hb0, ?_, rfl⟩
        simp only [hpush, if_true, ite_true]
        rw [List.getElem?_set_ne (Ne.symm hne)]
        exact happ
  · cases b with
    | false => exact ⟨b0, b0, hb0, by simpa [hpush] using hb0, rfl⟩
    | true =>
        by_cases hsame : i / 8 = c.length / 8
        · have hset :
              ((c.null_bitmap.set (c.length / 8)
                  (c.null_bitmap.getD (c.length / 8) 0 |||
                    (1 <<< (c.length % 8)))))[i / 8]? =
                some (c.null_bitmap.getD (c.length / 8) 0 ||| (1 <<< (c.length % 8))) := by
            rw [hsame]
            exact List.getElem?_set_self' ▸ by
              simp [List.getElem?_set, show c.length / 8 < c.null_bitmap.length by omega]
          refine ⟨b0, _, hb0, by simpa [hpush] using hset, ?_⟩
          have hgd : c.null_bitmap[c.length / 8]?.getD 0 = b0 := by
            rw [← hsame, hb0]; rfl
          have hbit : i % 8 ≠ c.length % 8 := by omega
          rw [hgd, Nat.testBit_or, Nat.shiftLeft_eq, one_mul,
            Nat.testBit_two_pow_of_ne (Ne.symm hbit), Bool.or_false]
        · refine ⟨b0, b0, hb0, ?_, rfl⟩
          simpa [hpush, List.getElem?_set_ne (Ne.symm hsame)] using hb0

/-- Appending a row to the bitmap does not change the nullness of any
existing row. -/
theorem append_null_bitmap_is_null_lt (c : Column) (b : Bool) (i : Nat)
    (hlen : c.null_bitmap.length = (c.length + 7) / 8) (hi : i < c.length) :
    (c.append_null_bitmap b).is_null i = c.is_null i := by
  obtain ⟨b0, b1, h0, h1, hb⟩ := append_null_bitmap_getElem?_lt c b i hlen hi
  rw [is_null, is_null, bitmapNull_eq_of_getElem? _ _ _ h1,
    bitmapNull_eq_of_getElem? _ _ _ h0, hb]

/-- A value append marks the freshly written row as not-null. -/
theorem append_null_bitmap_true_is_null_self (c : Column) :
    (c.append_null_bitmap true).is_null c.length = false := by
  unfold append_null_bitmap is_null
  set bm := if c.null_bitmap.length ≤ c.length / 8 then c.null_bitmap ++ [0]
            else c.null_bitmap with hbm
  by_cases hin : c.length / 8 < bm.length
  · have hset : (bm.set (c.length / 8)
        (bm.getD (c.length / 8) 0 ||| (1 <<< (c.length % 8))))[c.length / 8]? =
        some (bm.getD (c.length / 8) 0 ||| (1 <<< (c.length % 8))) :=
      List.getElem?_set_self' ▸ by simp [List.getElem?_set, hin]
    rw [if_pos rfl]
    rw [bitmapNull_eq_of_getElem? _ _ _ hset]
    simp [Nat.testBit_or, Nat.shiftLeft_eq, Nat.testBit_two_pow_self]
  · have hnone : (bm.set (c.length / 8)
        (bm.getD (c.length / 8) 0 ||| (1 <<< (c.length % 8))))[c.length / 8]? = none := by
      rw [List.getElem?_eq_none]
      simp only [List.length_set]
      omega
    rw [if_pos rfl]
    rw [bitmapNull_eq_false_of_none _ _ hnone]

end Column

/-- A stable 8-byte window of a buffer survives appending bytes. -/
theorem slice8_append (data extra : List Nat) (s : Nat) (h : s + 8 ≤ data.length) :
    ((data ++ extra).drop s).take 8 = (data.drop s).take 8 := by
  rw [List.drop_append_of_le_length (by omega),
    List.take_append_of_le_length (by simp [List.length_drop]; omega)]

namespace Column

/-- Invariant of 8-byte fixed-width columns built by appends: the slot
width is 8, the buffer holds one slot per row, the bitmap holds one
byte per started group of 8 rows, and the slot under every null row is
all zero bytes. -/
def FixedColInv (c : Column) : Prop :=
  c.fixed_len = 8 ∧
  c.data.length = 8 * c.length ∧
  c.null_bitmap.length = (c.length + 7) / 8 ∧
  ∀ i, i < c.length → c.is_null i = true →
    (c.data.drop (8 * i)).take 8 = List.replicate 8 0

theorem fixedColInv_new : FixedColInv (new_fixed_column 8) := by
  refine ⟨rfl, rfl, rfl, ?_⟩
  intro i hi
  simp [new_fixed_column] at hi

theorem is_null_set_data (c : Column) (x : List Nat) (i : Nat) :
    ({ c with data := x }).is_null i = c.is_null i := rfl

theorem finish_append_fixed_length (d : Column) :
    (finish_append_fixed d).length = d.length + 1 := by
  show (d.append_null_bitmap true).length + 1 = d.length + 1
  rw [append_null_bitmap_len]

theorem finish_append_fixed_data (d : Column) :
    (finish_append_fixed d).data = d.data := by
  show (d.append_null_bitmap true).data = d.data
  exact append_null_bitmap_data d true

theorem finish_append_fixed_fixed_len (d : Column) :
    (finish_append_fixed d).fixed_len = d.fixed_len := by
  show (d.append_null_bitmap true).fixed_len = d.fixed_len
  exact append_null_bitmap_fixed_len d true

theorem finish_append_fixed_is_null (d : Column) (i : Nat) :
    (finish_append_fixed d).is_null i = (d.append_null_bitmap true).is_null i := rfl

theorem finish_append_fixed_null_bitmap (d : Column) :
    (finish_append_fixed d).null_bitmap = (d.append_null_bitmap true).null_bitmap := rfl

/-- `append_null` on a fixed column: field-level description. -/
theorem append_null_fixed_eq (c : Column) (h : 0 < c.fixed_len) :
    c.append_null =
      { c.append_null_bitmap false with
          data := c.data ++ List.replicate c.fixed_len 0
          length := c.length + 1 } := by
  have hfix : (c.append_null_bitmap false).is_fixed = true := by
    have : (c.append_null_bitmap false).fixed_len = c.fixed_len :=
      append_null_bitmap_fixed_len c false
    simp [is_fixed, this, h]
  unfold append_null
  simp only [hfix, if_true, append_null_bitmap_data, append_null_bitmap_len,
    append_null_bitmap_fixed_len]

theorem fixedColInv_append_null {c : Column} (h : FixedColInv c) :
    FixedColInv c.append_null := by
  obtain ⟨hfl, hdata, hbm, hslot⟩ := h
  rw [append_null_fixed_eq c (by omega)]
  refine ⟨by simpa using hfl, ?_, ?_, ?_⟩
  · simp [append_null_bitmap_data, hdata, hfl]
    omega
  · simpa using append_null_bitmap_length c false hbm
  · intro i hi hnull
    simp only at hi hnull ⊢
    rcases Nat.lt_or_ge i c.length with hlt | hge
    · have hstable : ({ c.append_null_bitmap false with
            data := c.data ++ List.replicate c.fixed_len 0
            length := c.length + 1 }).is_null i = (c.append_null_bitmap false).is_null i :=
        rfl
      have hnull' : c.is_null i = true := by
        rw [← append_null_bitmap_is_null_lt c false i hbm hlt, ← hstable]
        exact hnull
      rw [slice8_append _ _ _ (by omega)]
      exact hslot i hlt hnull'
    · have heq : i = c.length := by omega
      rw [heq, show 8 * c.length = c.data.length by omega, List.drop_left]
      rw [hfl]
      simp

theorem fixedColInv_append_fixed_value {c : Column} (w : List Nat)
    (hw : w.length = 8) (h : FixedColInv c) :
    FixedColInv (finish_append_fixed { c with data := c.data ++ w }) := by
  obtain ⟨hfl, hdata, hbm, hslot⟩ := h
  have hbm' : ({ c with data := c.data ++ w } : Column).null_bitmap.length =
      (({ c with data := c.data ++ w } : Column).length + 7) / 8 := hbm
  refine ⟨?_, ?_, ?_, ?_⟩
  · rw [finish_append_fixed_fixed_len]; exact hfl
  · rw [finish_append_fixed_data, finish_append_fixed_length]
    simp [hdata, hw]
    omega
  · rw [finish_append_fixed_null_bitmap, finish_append_fixed_length]
    simpa using append_null_bitmap_length { c with data := c.data ++ w } true hbm'
  · intro i hi hnull
    rw [finish_append_fixed_length] at hi
    have hi2 : i < c.length + 1 := hi
    rw [finish_append_fixed_is_null] at hnull
    rw [finish_append_fixed_data]
    rcases Nat.lt_or_ge i c.length with hlt | hge
    · have hstable :=
        append_null_bitmap_is_null_lt { c with data := c.data ++ w } true i hbm' hlt
      rw [hstable, is_null_set_data] at hnull
      rw [show ({ c with data := c.data ++ w } : Column).data = c.data ++ w from rfl]
      rw [slice8_append _ _ _ (by omega)]
      exact hslot i hlt hnull
    · exfalso
      have heq : i = c.length := by omega
      rw [heq] at hnull
      rw [append_null_bitmap_true_is_null_self { c with data := c.data ++ w }] at hnull
      exact Bool.false_ne_true hnull

theorem fixedColInv_applyFixedOp {c : Column} (h : FixedColInv c) (op : FixedOp) :
    FixedColInv (applyFixedOp c op) := by
  cases op with
  | nullOp => exact fixedColInv_append_null h
  | i64Op v => exact fixedColInv_append_fixed_value _ (leBytes_length 8 _) h
  | u64Op v => exact fixedColInv_append_fixed_value _ (leBytes_length 8 _) h
  | f64Op p => exact fixedColInv_append_fixed_value _ (leBytes_length 8 _) h

theorem fixedColInv_buildFixed (ops : List FixedOp) : FixedColInv (buildFixed ops) := by
  have main : ∀ (l : List FixedOp) (c : Column), FixedColInv c →
      FixedColInv (l.foldl applyFixedOp c) := by
    intro l
    induction l with
    | nil => intro c hc; exact hc
    | cons op rest ih =>
        intro c hc
        exact ih _ (fixedColInv_applyFixedOp hc op)
  exact main ops _ fixedColInv_new

end Column

/-- C10: on an 8-byte fixed-width column built purely by append
operations, `append_null` zero-fills the whole reserved slot, so
`get_i64` and `get_u64` at any null row deterministically return 0. -/
theorem c10_null_fixed_slot_reads_zero (ops : List FixedOp) (i : Nat)
    (hi : i < (buildFixed ops).length)
    (hnull : (buildFixed ops).is_null i = true) :
    (buildFixed ops).get_i64 i = some 0 ∧ (buildFixed ops).get_u64 i = some 0 := by
  obtain ⟨hfl, hdata, hbm, hslot⟩ := Column.fixedColInv_buildFixed ops
  have hslice := hslot i hi hnull
  have hcond : i * (buildFixed ops).fixed_len + (buildFixed ops).fixed_len ≤
      (buildFixed ops).data.length ∧ 8 ≤ (buildFixed ops).fixed_len := by
    rw [hfl, hdata]
    omega
  have hs : ((buildFixed ops).data.drop (i * (buildFixed ops).fixed_len)).take 8 =
      List.replicate 8 0 := by
    rw [hfl, Nat.mul_comm]
    exact hslice
  constructor
  · show (if i * (buildFixed ops).fixed_len + (buildFixed ops).fixed_len ≤
          (buildFixed ops).data.length ∧ 8 ≤ (buildFixed ops).fixed_len then
        some (decI64 (((buildFixed ops).data.drop
          (i * (buildFixed ops).fixed_len)).take 8))
      else none) = some 0
    rw [if_pos hcond, hs]
    decide
  · show (if i * (buildFixed ops).fixed_len + (buildFixed ops).fixed_len ≤
          (buildFixed ops).data.length ∧ 8 ≤ (buildFixed ops).fixed_len then
        some (leRead (((buildFixed ops).data.drop
          (i * (buildFixed ops).fixed_len)).take 8))
      else none) = some 0
    rw [if_pos hcond, hs]
    decide

/-- Witness for C10 at a concrete input: an `i64` column holding
`[5, null]`; the null row reads back as integer 0. -/
theorem c10_null_fixed_slot_reads_zero_witness :
    (buildFixed [FixedOp.i64Op 5, FixedOp.nullOp]).get_i64 1 = some 0 ∧
    (buildFixed [FixedOp.i64Op 5, FixedOp.nullOp]).get_u64 1 = some 0 :=
  c10_null_fixed_slot_reads_zero [FixedOp.i64Op 5, FixedOp.nullOp] 1 (by decide) (by decide)

namespace Column

/-- Structural well-formedness of a column as maintained by the append
operations: the null count matches the bitmap, the bitmap has one byte
per started group of 8 rows, and the encoding-specific buffers have
one entry (or slot) per row. -/
def ColWF (c : Column) : Prop :=
  c.null_bitmap.length = (c.length + 7) / 8 ∧
  c.null_cnt = c.nullsBetween 0 c.length ∧
  (c.is_fixed = true → c.data.length = c.length * c.fixed_len) ∧
  (c.is_fixed = false → c.is_varlen = true → c.var_offsets.length = c.length + 1) ∧
  (c.is_fixed = false → c.is_varlen = false → c.ifaces.length = c.length)

instance (c : Column) : Decidable (ColWF c) := by
  unfold ColWF
  infer_instance

theorem nullsBetween_split (c : Column) (n L : Nat) (h : n ≤ L) :
    c.nullsBetween 0 L = c.nullsBetween 0 n + c.nullsBetween n L := by
  unfold nullsBetween
  rw [Nat.sub_zero, Nat.sub_zero]
  have hr : List.range' 0 n ++ List.range' n (L - n) = List.range' 0 L := by
    have h0 := List.range'_append 0 n (L - n) 1
    simp at h0
    rw [h0]
    congr 1
    omega
  rw [← hr, List.countP_append]

end Column

/-- C4 (amended): for a well-formed column with `L` rows and `n ≤ L`,
`truncate_to n` succeeds and yields length `n`, a null count equal to
the number of null rows among the first `n` (the discarded range's
nulls are subtracted), offsets truncated to exactly `n + 1` entries for
the variable-length form, and a null bitmap of
`min (n / 8 + 1) ((L + 7) / 8)` bytes — one byte more than `⌈n/8⌉`
exactly when `n` is a multiple of 8 and `n < L`. -/
theorem c4_truncate_to_amended (c : Column) (n : Nat)
    (hwf : Column.ColWF c) (hn : n ≤ c.length) :
    ∃ c', c.truncate_to n = some c' ∧
      c'.length = n ∧
      c'.null_cnt = c.nullsBetween 0 n ∧
      (c.is_fixed = false → c.is_varlen = true → c'.var_offsets.length = n + 1) ∧
      c'.null_bitmap.length = min (n / 8 + 1) ((c.length + 7) / 8) := by
  obtain ⟨hbm, hcnt, hfixlen, hvarlen, hboxlen⟩ := hwf
  have hcnt' : c.null_cnt - c.nullsBetween n c.length = c.nullsBetween 0 n := by
    rw [hcnt, Column.nullsBetween_split c n c.length hn]
    omega
  by_cases hf : c.is_fixed = true
  · have hstep : c.truncate_to n =
        some { length := n
               null_cnt := c.null_cnt - c.nullsBetween n c.length
               null_bitmap := c.null_bitmap.take (n / 8 + 1)
               var_offsets := c.var_offsets
               data := c.data.take (c.fixed_len * n)
               fixed_len := c.fixed_len
               ifaces := c.ifaces } := by
      unfold Column.truncate_to
      rw [hf]
      rfl
    refine ⟨_, hstep, rfl, hcnt', ?_, ?_⟩
    · intro h1
      rw [hf] at h1
      simp at h1
    · simp [List.length_take, hbm]
  · have hf' : c.is_fixed = false := by simpa using hf
    by_cases hv : c.is_varlen = true
    · obtain ⟨o, ho⟩ : ∃ o, c.var_offsets.get? n = some o := by
        have : n < c.var_offsets.length := by
          rw [hvarlen hf' hv]
          omega
        exact ⟨c.var_offsets.get ⟨n, this⟩, List.get?_eq_get this⟩
      have hstep : c.truncate_to n =
          some { length := n
                 null_cnt := c.null_cnt - c.nullsBetween n c.length
                 null_bitmap := c.null_bitmap.take (n / 8 + 1)
                 var_offsets := c.var_offsets.take (n + 1)
                 data := c.data.take o
                 fixed_len := c.fixed_len
                 ifaces := c.ifaces } := by
        unfold Column.truncate_to
        rw [hf', hv, ho]
        rfl
      refine ⟨_, hstep, rfl, hcnt', ?_, ?_⟩
      · intro _ _
        simp [List.length_take, hvarlen hf' hv]
        omega
      · simp [List.length_take, hbm]
    · have hv' : c.is_varlen = false := by simpa using hv
      have hstep : c.truncate_to n =
          some { length := n
                 null_cnt := c.null_cnt - c.nullsBetween n c.length
                 null_bitmap := c.null_bitmap.take (n / 8 + 1)
                 var_offsets := c.var_offsets
                 data := c.data
                 fixed_len := c.fixed_len
                 ifaces := c.ifaces.take n } := by
        unfold Column.truncate_to
        rw [hf', hv']
        rfl
      refine ⟨_, hstep, rfl, hcnt', ?_, ?_⟩
      · intro _ h2
        rw [hv'] at h2
        simp at h2
      · simp [List.length_take, hbm]

/-- C4 counterexample to the claim as stated: after truncating a
one-row fixed column to 0 rows the bitmap keeps `0 / 8 + 1 = 1` byte,
not the `⌈0/8⌉ = 0` bytes the claim requires. -/
theorem c4_bitmap_ceil_counterexample :
    (((Column.new_fixed_column 8).append_null).truncate_to 0).map
        (fun c' => c'.null_bitmap.length) = some 1 ∧ (0 + 7) / 8 = 0 := by
  decide

/-- Witness for C4 (amended) on a concrete two-row var-length column
`[null, "a"]` truncated to one row. -/
theorem c4_truncate_to_amended_witness :
    ∃ c', ((Column.new_var_len_column.append_null).append_str [97]).truncate_to 1 =
        some c' ∧
      c'.length = 1 ∧
      c'.null_cnt =
        ((Column.new_var_len_column.append_null).append_str [97]).nullsBetween 0 1 ∧
      (((Column.new_var_len_column.append_null).append_str [97]).is_fixed = false →
        ((Column.new_var_len_column.append_null).append_str [97]).is_varlen = true →
        c'.var_offsets.length = 1 + 1) ∧
      c'.null_bitmap.length = min (1 / 8 + 1)
        (((((Column.new_var_len_column.append_null).append_str [97]).length + 7) / 8)) :=
  c4_truncate_to_amended _ 1 (by decide) (by decide)

/-! ### Batch limit executor (claims C2, C6) -/

/-- Modelled from the spec: the result of one `next_batch` pull is a
row batch plus an end-of-stream flag; the batch is abstracted to its
row count (`result.data.rows_len()`).  The `batch_executor::interface`
module itself is not among the included sources. -/
structure BatchExecuteResult where
  rows_len : Nat
  is_drained : Bool
deriving Repr, DecidableEq

/-- `BatchLimitExecutor`: the source executor is abstracted to a state
machine `src_next` over a state type `S`; `expect_rows` is the
struct's remaining-quota field, initialised to the configured limit. -/
structure BatchLimitExecutor (S : Type) where
  src_next : S → Nat → BatchExecuteResult × S
  src_state : S
  expect_rows : Nat

/-- `BatchLimitExecutor::next_batch`: clamps the request to the
remaining quota, always delegates to the source (per the source
comment, a zero-row request is left for the source to check), and
decrements the quota by the rows actually produced (`u64` subtraction
modelled as truncated `Nat` subtraction; the no-overproduction
hypothesis of C6 keeps it exact). -/
def BatchLimitExecutor.next_batch {S : Type} (e : BatchLimitExecutor S)
    (expect_rows : Nat) : BatchExecuteResult × BatchLimitExecutor S :=
  let expect_rows := if expect_rows > e.expect_rows then e.expect_rows else expect_rows
  let r := e.src_next e.src_state expect_rows
  (r.1, { e with src_state := r.2, expect_rows := e.expect_rows - r.1.rows_len })

/-- Runs a sequence of requests through the limit executor. -/
def runBatches {S : Type} (e : BatchLimitExecutor S) :
    List Nat → List BatchExecuteResult × BatchLimitExecutor S
  | [] => ([], e)
  | n :: rest =>
      let r := e.next_batch n
      let rest' := runBatches r.2 rest
      (r.1 :: rest'.1, rest'.2)

/-- Total number of rows across a sequence of pull results. -/
def totalRows (rs : List BatchExecuteResult) : Nat :=
  (rs.map fun r => r.rows_len).sum

/-- C2 counterexample: a limit executor whose quota is exhausted
(`expect_rows = 0`) still invokes its source on `next_batch` (the
call-counting source state advances from 0 to 1) and does not set the
end-of-stream flag itself (the flag is whatever the source returned,
here `false`).  The claim as stated — zero rows with end-of-stream
set, without delegating — is false on the code. -/
theorem c2_counterexample :
    (({ src_next := fun s _ => ({ rows_len := 0, is_drained := false }, s + 1)
        src_state := 0
        expect_rows := 0 } : BatchLimitExecutor Nat).next_batch 5).1.is_drained = false ∧
    (({ src_next := fun s _ => ({ rows_len := 0, is_drained := false }, s + 1)
        src_state := 0
        expect_rows := 0 } : BatchLimitExecutor Nat).next_batch 5).2.src_state = 1 := by
  exact ⟨rfl, rfl⟩

/-- C2 (amended): once the remaining quota is 0, every `next_batch`
call clamps the request to 0 and still delegates to the source,
returning the source's result unchanged (it returns zero rows only
because a conforming source honors the request bound); assuming the
source never produces more rows than requested — the same hypothesis
C6 needs, without which the source's `u64` quota decrement would
underflow — the quota stays 0.  The decorator itself neither forces
zero rows nor sets the end-of-stream flag. -/
theorem c2_exhausted_quota_still_delegates {S : Type} (e : BatchLimitExecutor S)
    (hsrc : ∀ s n, (e.src_next s n).1.rows_len ≤ n)
    (h : e.expect_rows = 0) (n : Nat) :
    (e.next_batch n).1 = (e.src_next e.src_state 0).1 ∧
    (e.next_batch n).2.src_state = (e.src_next e.src_state 0).2 ∧
    (e.next_batch n).2.expect_rows = 0 := by
  have hcl : (if n > e.expect_rows then e.expect_rows else n) = 0 := by
    rw [h]
    by_cases hn : n > 0 <;> simp [hn] <;> omega
  have hrows : (e.src_next e.src_state 0).1.rows_len = 0 :=
    Nat.le_zero.1 (hsrc e.src_state 0)
  unfold BatchLimitExecutor.next_batch
  rw [hcl, h]
  refine ⟨rfl, rfl, ?_⟩
  show 0 - (e.src_next e.src_state 0).1.rows_len = 0
  rw [hrows]

/-- Witness for C2 (amended) at a concrete executor with quota 0. -/
theorem c2_exhausted_quota_still_delegates_witness :
    (({ src_next := fun s k => ({ rows_len := k, is_drained := false }, s + 1)
        src_state := 0
        expect_rows := 0 } : BatchLimitExecutor Nat).next_batch 3).1 =
      (({ src_next := fun s k => ({ rows_len := k, is_drained := false }, s + 1)
          src_state := 0
          expect_rows := 0 } : BatchLimitExecutor Nat).src_next 0 0).1 ∧
    (({ src_next := fun s k => ({ rows_len := k, is_drained := false }, s + 1)
        src_state := 0
        expect_rows := 0 } : BatchLimitExecutor Nat).next_batch 3).2.src_state =
      (({ src_next := fun s k => ({ rows_len := k, is_drained := false }, s + 1)
          src_state := 0
          expect_rows := 0 } : BatchLimitExecutor Nat).src_next 0 0).2 ∧
    (({ src_next := fun s k => ({ rows_len := k, is_drained := false }, s + 1)
        src_state := 0
        expect_rows := 0 } : BatchLimitExecutor Nat).next_batch 3).2.expect_rows = 0 :=
  c2_exhausted_quota_still_delegates _ (fun s k => Nat.le_refl k) rfl 3

/-- The cumulative row count of any run is bounded by the initial
quota, provided the source never over-produces. -/
theorem runBatches_total_le {S : Type} (reqs : List Nat) (e : BatchLimitExecutor S)
    (hsrc : ∀ s n, (e.src_next s n).1.rows_len ≤ n) :
    totalRows (runBatches e reqs).1 ≤ e.expect_rows := by
  induction reqs generalizing e with
  | nil => simp [runBatches, totalRows]
  | cons n rest ih =>
      have hclamp : (if n > e.expect_rows then e.expect_rows else n) ≤ e.expect_rows := by
        by_cases hn : n > e.expect_rows <;> simp [hn] <;> omega
      have hrows : (e.next_batch n).1.rows_len ≤ e.expect_rows :=
        le_trans (hsrc e.src_state _) hclamp
      have hsrc' : ∀ s k, ((e.next_batch n).2.src_next s k).1.rows_len ≤ k := hsrc
      have hrem : (e.next_batch n).2.expect_rows =
          e.expect_rows - (e.next_batch n).1.rows_len := rfl
      have hrec := ih (e.next_batch n).2 hsrc'
      rw [hrem] at hrec
      simp only [runBatches, totalRows, List.map_cons, List.sum_cons]
      have : totalRows (runBatches (e.next_batch n).2 rest).1 =
          ((runBatches (e.next_batch n).2 rest).1.map fun r => r.rows_len).sum := rfl
      omega

/-- C6: every individual request is clamped to
`min (requested, remaining)` before delegation, and — provided the
source never returns more rows than requested — the cumulative rows
returned across any sequence of `next_batch` calls never exceed the
configured limit `N`. -/
theorem c6_limit_clamps_and_bounds {S : Type} (src : S → Nat → BatchExecuteResult × S)
    (hsrc : ∀ s n, (src s n).1.rows_len ≤ n) (s0 : S) (N : Nat) (reqs : List Nat) :
    (∀ (e : BatchLimitExecutor S) (n : Nat), e.src_next = src →
        (e.next_batch n).1 = (src e.src_state (min n e.expect_rows)).1 ∧
        (e.next_batch n).2.expect_rows =
          e.expect_rows - (src e.src_state (min n e.expect_rows)).1.rows_len) ∧
    totalRows (runBatches
      { src_next := src, src_state := s0, expect_rows := N } reqs).1 ≤ N := by
  constructor
  · intro e n he
    have hmin : (if n > e.expect_rows then e.expect_rows else n) = min n e.expect_rows := by
      by_cases hn : n > e.expect_rows <;> simp [hn] <;> omega
    unfold BatchLimitExecutor.next_batch
    rw [hmin, he]
    exact ⟨rfl, rfl⟩
  · exact runBatches_total_le reqs _ hsrc

/-- Witness for C6 at a concrete source that echoes the request. -/
theorem c6_limit_clamps_and_bounds_witness :
    (∀ (e : BatchLimitExecutor Unit) (n : Nat),
        e.src_next =
          (fun s k => (({ rows_len := k, is_drained := false } : BatchExecuteResult), s)) →
        (e.next_batch n).1 =
          ((fun (s : Unit) (k : Nat) =>
              (({ rows_len := k, is_drained := false } : BatchExecuteResult), s))
            e.src_state (min n e.expect_rows)).1 ∧
        (e.next_batch n).2.expect_rows =
          e.expect_rows -
            ((fun (s : Unit) (k : Nat) =>
                (({ rows_len := k, is_drained := false } : BatchExecuteResult), s))
              e.src_state (min n e.expect_rows)).1.rows_len) ∧
    totalRows (runBatches
      { src_next := fun s k => (({ rows_len := k, is_drained := false } : BatchExecuteResult), s)
        src_state := ()
        expect_rows := 2 } [1, 5]).1 ≤ 2 :=
  c6_limit_clamps_and_bounds _ (fun s n => Nat.le_refl n) () 2 [1, 5]

/-! ### Expression evaluation context (claims C3, C9) -/

/-- `FLAG_IGNORE_TRUNCATE`. -/
def FLAG_IGNORE_TRUNCATE : Nat := 1
/-- `FLAG_TRUNCATE_AS_WARNING`. -/
def FLAG_TRUNCATE_AS_WARNING : Nat := 2
/-- `FLAG_IN_SELECT_STMT`. -/
def FLAG_IN_SELECT_STMT : Nat := 32
/-- `FLAG_OVERFLOW_AS_WARNING`. -/
def FLAG_OVERFLOW_AS_WARNING : Nat := 64

/-- `DEFAULT_MAX_WARNING_CNT`. -/
def DEFAULT_MAX_WARNING_CNT : Nat := 64

/-- `EvalConfig` (the timezone field does not influence error or
warning classification and is omitted).  Note the flag set: there is a
warning flag for overflow but no ignore flag for it. -/
structure EvalConfig where
  ignore_truncate : Bool
  truncate_as_warning : Bool
  overflow_as_warning : Bool
  in_select_stmt : Bool
  max_warning_cnt : Nat
deriving Repr, DecidableEq

/-- `EvalConfig::new` (the timezone-offset validation concerns only
the omitted timezone field). -/
def EvalConfig.new (flags : Nat) : EvalConfig :=
  { ignore_truncate := flags &&& FLAG_IGNORE_TRUNCATE > 0
    truncate_as_warning := flags &&& FLAG_TRUNCATE_AS_WARNING > 0
    overflow_as_warning := flags &&& FLAG_OVERFLOW_AS_WARNING > 0
    in_select_stmt := flags &&& FLAG_IN_SELECT_STMT > 0
    max_warning_cnt := DEFAULT_MAX_WARNING_CNT }

/-- `EvalWarnings`, generic in the warning payload type `E` (the
source stores converted `select::Error` values; their contents are
irrelevant to accumulation). -/
structure EvalWarnings (E : Type) where
  max_warning_cnt : Nat
  warning_cnt : Nat
  warnings : List E
deriving Repr, DecidableEq

namespace EvalWarnings

/-- `EvalWarnings::new`. -/
def new (E : Type) (max_warning_cnt : Nat) : EvalWarnings E :=
  { max_warning_cnt := max_warning_cnt, warning_cnt := 0, warnings := [] }

/-- `EvalWarnings::append_warning`: always counts, pushes the detail
only below the cap. -/
def append_warning (w : EvalWarnings E) (err : E) : EvalWarnings E :=
  { w with warning_cnt := w.warning_cnt + 1
           warnings := if w.warnings.length < w.max_warning_cnt
                       then w.warnings ++ [err] else w.warnings }

/-- `EvalWarnings::merge`: adds the merged count, then moves over at
most the remaining detail capacity. -/
def merge (w other : EvalWarnings E) : EvalWarnings E :=
  let w := { w with warning_cnt := w.warning_cnt + other.warning_cnt }
  if w.warnings.length ≥ w.max_warning_cnt then w
  else { w with warnings :=
          w.warnings ++ other.warnings.take (w.max_warning_cnt - w.warnings.length) }

end EvalWarnings

/-- `EvalContext`. -/
structure EvalContext (E : Type) where
  cfg : EvalConfig
  warnings : EvalWarnings E
deriving Repr, DecidableEq

namespace EvalContext

/-- `EvalContext::new`. -/
def new (E : Type) (cfg : EvalConfig) : EvalContext E :=
  { cfg := cfg, warnings := EvalWarnings.new E cfg.max_warning_cnt }

/-- `EvalContext::handle_truncate_err`: ignore, else warn, else
error. -/
def handle_truncate_err (ctx : EvalContext E) (err : E) : Except E (EvalContext E) :=
  if ctx.cfg.ignore_truncate then .ok ctx
  else if ctx.cfg.truncate_as_warning then
    .ok { ctx with warnings := ctx.warnings.append_warning err }
  else .error err

/-- `EvalContext::handle_over_flow`: warn if configured, else error —
there is no ignore branch. -/
def handle_over_flow (ctx : EvalContext E) (err : E) : Except E (EvalContext E) :=
  if ctx.cfg.overflow_as_warning then
    .ok { ctx with warnings := ctx.warnings.append_warning err }
  else .error err

end EvalContext

/-- C3 counterexample: with every ignore-style flag set
(`FLAG_IGNORE_TRUNCATE ||| FLAG_TRUNCATE_AS_WARNING`) but the overflow
warning flag clear, `handle_truncate_err` silently drops the error
while `handle_over_flow` still returns it: overflow handling has no
ignored outcome, so it does not follow the three-way precedence the
claim states. -/
theorem c3_counterexample :
    (EvalContext.new Nat (EvalConfig.new
        (FLAG_IGNORE_TRUNCATE ||| FLAG_TRUNCATE_AS_WARNING))).handle_over_flow 7 =
      Except.error 7 ∧
    (EvalContext.new Nat (EvalConfig.new
        (FLAG_IGNORE_TRUNCATE ||| FLAG_TRUNCATE_AS_WARNING))).handle_truncate_err 7 =
      Except.ok (EvalContext.new Nat (EvalConfig.new
        (FLAG_IGNORE_TRUNCATE ||| FLAG_TRUNCATE_AS_WARNING))) := by
  exact ⟨rfl, rfl⟩

/-- C3 (amended): `handle_over_flow` admits exactly two outcomes under
its own configuration: with the overflow-as-warning flag set the error
is recorded as a warning (the count always increases — it is never
silently dropped) and the call succeeds; otherwise the error is
returned.  `EvalConfig` has no overflow-ignore flag at all. -/
theorem c3_overflow_two_way {E : Type} (ctx : EvalContext E) (err : E) :
    (ctx.cfg.overflow_as_warning = true →
        ctx.handle_over_flow err =
          Except.ok { ctx with warnings := ctx.warnings.append_warning err } ∧
        (ctx.warnings.append_warning err).warning_cnt = ctx.warnings.warning_cnt + 1) ∧
    (ctx.cfg.overflow_as_warning = false →
        ctx.handle_over_flow err = Except.error err) := by
  constructor
  · intro hflag
    refine ⟨?_, rfl⟩
    unfold EvalContext.handle_over_flow
    rw [hflag]
    rfl
  · intro hflag
    unfold EvalContext.handle_over_flow
    rw [hflag]
    rfl

/-- Witness for C3 (amended) under both flag values. -/
theorem c3_overflow_two_way_witness :
    (EvalContext.new Nat (EvalConfig.new FLAG_OVERFLOW_AS_WARNING)).handle_over_flow 7 =
      Except.ok { EvalContext.new Nat (EvalConfig.new FLAG_OVERFLOW_AS_WARNING) with
        warnings :=
          (EvalContext.new Nat
            (EvalConfig.new FLAG_OVERFLOW_AS_WARNING)).warnings.append_warning 7 } ∧
    (EvalContext.new Nat (EvalConfig.new 0)).handle_over_flow 7 = Except.error 7 :=
  ⟨((c3_overflow_two_way
      (EvalContext.new Nat (EvalConfig.new FLAG_OVERFLOW_AS_WARNING)) 7).1 (by decide)).1,
   (c3_overflow_two_way (EvalContext.new Nat (EvalConfig.new 0)) 7).2 (by decide)⟩

/-- Builder tree for warning accumulators: a leaf is a fresh
accumulator with cap `M` (as `EvalConfig::new_eval_warnings`
produces), `app` appends one warning, `mrg` merges in a second
accumulator built under the same configuration. -/
inductive WarnTree (E : Type) where
  | leaf
  | app (t : WarnTree E) (e : E)
  | mrg (t u : WarnTree E)

/-- Number of warnings encountered over a builder tree, counting every
warning of every merged accumulator. -/
def WarnTree.encountered {E : Type} : WarnTree E → Nat
  | .leaf => 0
  | .app t _ => t.encountered + 1
  | .mrg t u => t.encountered + u.encountered

/-- The accumulator a builder tree evaluates to. -/
def WarnTree.eval {E : Type} (M : Nat) : WarnTree E → EvalWarnings E
  | .leaf => EvalWarnings.new E M
  | .app t e => (t.eval M).append_warning e
  | .mrg t u => (t.eval M).merge (u.eval M)

theorem WarnTree.eval_max {E : Type} (M : Nat) (t : WarnTree E) :
    (t.eval M).max_warning_cnt = M := by
  induction t with
  | leaf => rfl
  | app t e ih => exact ih
  | mrg t u iht ihu =>
      show (EvalWarnings.merge _ _).max_warning_cnt = M
      unfold EvalWarnings.merge
      by_cases hc : ((t.eval M).merge (u.eval M)).warnings.length ≥ M <;>
        simp only <;> split <;> simpa using iht

/-- C9: after any sequence of `append_warning` and `merge` operations
under retained-count cap `M`, the total count equals exactly the
number of warnings encountered (merged accumulators included), the
retained-detail list never exceeds `M` entries, and count and list
length diverge as soon as more than `M` warnings were encountered. -/
theorem c9_warning_count_exact_and_capped {E : Type} (M : Nat) (t : WarnTree E) :
    (t.eval M).warning_cnt = t.encountered ∧
    (t.eval M).warnings.length ≤ M ∧
    (M < t.encountered →
      (t.eval M).warnings.length < (t.eval M).warning_cnt) := by
  have main : (t.eval M).warning_cnt = t.encountered ∧
      (t.eval M).warnings.length ≤ M := by
    induction t with
    | leaf => exact ⟨rfl, by simp [WarnTree.eval, EvalWarnings.new]⟩
    | app t e ih =>
        obtain ⟨ihc, ihl⟩ := ih
        refine ⟨by simpa [WarnTree.eval, EvalWarnings.append_warning,
          WarnTree.encountered] using ihc, ?_⟩
        show (if (t.eval M).warnings.length < (t.eval M).max_warning_cnt
              then (t.eval M).warnings ++ [e] else (t.eval M).warnings).length ≤ M
        rw [WarnTree.eval_max]
        split
        · simp
          omega
        · exact ihl
    | mrg t u iht ihu =>
        obtain ⟨ihtc, ihtl⟩ := iht
        obtain ⟨ihuc, ihul⟩ := ihu
        constructor
        · show (EvalWarnings.merge _ _).warning_cnt = _
          unfold EvalWarnings.merge
          simp only
          split
          · simp [WarnTree.encountered, ihtc, ihuc]
          · simp [WarnTree.encountered, ihtc, ihuc]
        · show (EvalWarnings.merge _ _).warnings.length ≤ M
          unfold EvalWarnings.merge
          simp only
          split
          · exact ihtl
          · simp only [List.length_append, List.length_take]
            rw [WarnTree.eval_max]
            omega
  exact ⟨main.1, main.2, fun h => by omega⟩

/-! ### DAG orchestration and result cache (claims C5, C7) -/

/-- `ColumnInfo`: the tipb schema fields consulted by
`inflate_cols`. -/
structure ColumnInfo where
  column_id : Int
  pk_handle : Bool
  default_val : Option (List Nat)
  flag : Nat
deriving Repr, DecidableEq

/-- `mysql::has_not_null_flag`: tests the NOT NULL bit of a column
flag word (`NOT_NULL_FLAG = 1`, the MySQL protocol constant; the
`mysql` helper module is outside the included sources). -/
def has_not_null_flag (flag : Nat) : Bool := flag &&& 1 > 0

/-- A row handed up by the executor tree: `value` is the pre-encoded
payload used on the aggregation path (`row.data.value`), `handle` the
row handle, `cols` the stored column values by column id
(`row.data.get(col_id)`). -/
structure ExecRow where
  value : List Nat
  handle : Int
  cols : Int → Option (List Nat)

/-- Failure modes of `inflate_cols`: an output offset outside the
schema (an index panic in the source) or the missing-column error for
a NOT NULL column. -/
inductive InflateErr where
  | badIndex
  | missingCol (column_id : Int) (handle : Int)
deriving Repr, DecidableEq

/-- Loop of `inflate_cols` over the output offsets, with the `values`
accumulator. -/
def inflate_cols_go (get_pk : ColumnInfo → Int → Datum) (encode : Datum → List Nat)
    (row : ExecRow) (cols : List ColumnInfo) :
    List Nat → List Nat → Except InflateErr (List Nat)
  | [], values => .ok values
  | off :: rest, values =>
      match cols.get? off with
      | none => .error .badIndex
      | some col =>
          match row.cols col.column_id with
          | some value => inflate_cols_go get_pk encode row cols rest (values ++ value)
          | none =>
              if col.pk_handle then
                inflate_cols_go get_pk encode row cols rest
                  (values ++ encode (get_pk col row.handle))
              else
                match col.default_val with
                | some d => inflate_cols_go get_pk encode row cols rest (values ++ d)
                | none =>
                    if has_not_null_flag col.flag then
                      .error (.missingCol col.column_id row.handle)
                    else
                      inflate_cols_go get_pk encode row cols rest
                        (values ++ encode Datum.null)

/-- `inflate_cols`: expands one row against the output column schema.
The primary-key derivation (`get_pk`) and the datum encoder
(`values.encode`) live outside the included sources and are abstracted
as parameters. -/
def inflate_cols (get_pk : ColumnInfo → Int → Datum) (encode : Datum → List Nat)
    (row : ExecRow) (cols : List ColumnInfo) (output_offsets : List Nat) :
    Except InflateErr (List Nat) :=
  inflate_cols_go get_pk encode row cols output_offsets []

/-- Per-column expansion as the specification words it: the stored
value if present; else, for a primary-key-handle column, the value
derived from the row handle; else the declared default; else an
encoded null — failing exactly on a NOT NULL column with none of the
above. -/
def expandColumn (get_pk : ColumnInfo → Int → Datum) (encode : Datum → List Nat)
    (row : ExecRow) (col : ColumnInfo) : Except InflateErr (List Nat) :=
  match row.cols col.column_id with
  | some v => .ok v
  | none =>
      if col.pk_handle then .ok (encode (get_pk col row.handle))
      else
        match col.default_val with
        | some d => .ok d
        | none =>
            if has_not_null_flag col.flag then
              .error (.missingCol col.column_id row.handle)
            else .ok (encode Datum.null)

/-- The condition under which a column cannot be expanded: no stored
value, no primary-key derivation, no default, and declared NOT
NULL. -/
def columnMissing (row : ExecRow) (col : ColumnInfo) : Prop :=
  row.cols col.column_id = none ∧ col.pk_handle = false ∧
  col.default_val = none ∧ has_not_null_flag col.flag = true

/-- The cache collaborator (`DISTSQL_CACHE`): the version query and
lookup; the `put` operation is reified as a `StoreCall` in the result
of `handle_request`. -/
structure DistSqlCache where
  get_region_version : Nat → Nat
  get : Nat → String → Option (List Nat)

/-- Arguments of a cache `put`: region id, cache key, the version
token passed, and the stored bytes. -/
structure StoreCall where
  region_id : Nat
  key : String
  version : Nat
  data : List Nat
deriving Repr, DecidableEq

/-- The coprocessor `Response`: the serialized payload plus whether a
business error was attached (`set_other_error`). -/
structure Response where
  data : List Nat
  other_error : Bool
deriving Repr, DecidableEq

/-- How the executor chain ends after its rows are exhausted:
`Ok(None)`, a business error (`Error::Other`), or a fatal error. -/
inductive ExecEnd where
  | finished
  | errOther
  | errFatal
deriving Repr, DecidableEq

/-- `DAGContext` (the execution-relevant fields). -/
structure DAGContext where
  columns : List ColumnInfo
  has_aggr : Bool
  has_topn : Bool
  output_offsets : List Nat
  batch_row_limit : Nat
  cache_key : String
  enable_distsql_cache : Bool

namespace DAGContext

/-- `DAGContext::can_cache`: the cache enable flag plus an aggregation
or top-N stage. -/
def can_cache (ctx : DAGContext) : Bool :=
  ctx.enable_distsql_cache && (ctx.has_aggr || ctx.has_topn)

/-- `DAGContext::can_cache_with_size`: a result bigger than 5 MiB is
never cached. -/
def can_cache_with_size (ctx : DAGContext) (data : List Nat) : Bool :=
  if data.length > 5 * 1024 * 1024 then false else ctx.can_cache

end DAGContext

/-- Extends the last output chunk by one row's encoded bytes (the
`chunks.last_mut().unwrap()` step; the caller has just ensured the
chunk list is non-empty). -/
def appendLast (chunks : List (List Nat)) (bytes : List Nat) : List (List Nat) :=
  chunks.dropLast ++ [chunks.getLast?.getD [] ++ bytes]

/-- The row loop of `handle_request`: checks staleness before
consuming each row, opens a new chunk when the current one holds
`batch_row_limit` rows, and appends either the pre-encoded aggregate
payload or the `inflate_cols` expansion.  A staleness or expansion
error aborts the request. -/
def buildChunks (ctx : DAGContext) (get_pk : ColumnInfo → Int → Datum)
    (encode : Datum → List Nat) (outdated : Bool) :
    List ExecRow → List (List Nat) → Nat → Except Unit (List (List Nat))
  | [], chunks, _ => .ok chunks
  | row :: rest, chunks, record_cnt =>
      if outdated then .error ()
      else
        let fresh := chunks.isEmpty || decide (record_cnt ≥ ctx.batch_row_limit)
        let chunks' := if fresh then chunks ++ [[]] else chunks
        let record_cnt' := (if fresh then 0 else record_cnt) + 1
        if ctx.has_aggr then
          buildChunks ctx get_pk encode outdated rest (appendLast chunks' row.value)
            record_cnt'
        else
          match inflate_cols get_pk encode row ctx.columns ctx.output_offsets with
          | .ok value =>
              buildChunks ctx get_pk encode outdated rest (appendLast chunks' value)
                record_cnt'
          | .error _ => .error ()

/-- `DAGContext::handle_request`: version capture and cache lookup
(only for cacheable plans), the row loop, response serialization
(abstracted as `ser`, protobuf lives outside the sources; `serErr` is
the serialized error response of the business-error branch), and the
store decision.  Effects on the shared cache are reified: the result
carries the `StoreCall` issued, if any; fatal errors are `.error`. -/
def DAGContext.handle_request (ctx : DAGContext)
    (ser : List (List Nat) → List Nat) (serErr : List Nat)
    (get_pk : ColumnInfo → Int → Datum) (encode : Datum → List Nat)
    (cache : DistSqlCache) (region_id : Nat) (outdated : Bool)
    (rows : List ExecRow) (fin : ExecEnd) :
    Except Unit (Response × Option StoreCall) :=
  let version := if ctx.can_cache then cache.get_region_version region_id else 0
  match (if ctx.can_cache then cache.get region_id ctx.cache_key else none) with
  | some data => .ok ({ data := data, other_error := false }, none)
  | none =>
      match buildChunks ctx get_pk encode outdated rows [] 0 with
      | .error e => .error e
      | .ok chunks =>
          match fin with
          | .finished =>
              let data := ser chunks
              if ctx.can_cache_with_size data then
                .ok ({ data := data, other_error := false },
                  some { region_id := region_id, key := ctx.cache_key
                         version := version, data := data })
              else
                .ok ({ data := data, other_error := false }, none)
          | .errOther => .ok ({ data := serErr, other_error := true }, none)
          | .errFatal => .error ()

theorem mapM_except_cons {α ε β : Type} (f : α → Except ε β) (a : α) (l : List α) :
    (a :: l).mapM f =
      (match f a with
       | .error e => .error e
       | .ok b =>
           match l.mapM f with
           | .error e => .error e
           | .ok bs => .ok (b :: bs)) := by
  rw [List.mapM_cons]
  cases hf : f a <;> cases hm : l.mapM f <;> simp [hf, hm] <;> rfl

/-- The `inflate_cols` loop is per-column expansion followed by
concatenation (accumulator form). -/
theorem inflate_cols_go_eq (gp : ColumnInfo → Int → Datum) (enc : Datum → List Nat)
    (row : ExecRow) (cols : List ColumnInfo) (offs : List Nat) (values : List Nat) :
    inflate_cols_go gp enc row cols offs values =
      (offs.mapM (fun off =>
        match cols.get? off with
        | some col => expandColumn gp enc row col
        | none => Except.error InflateErr.badIndex)).map
        (fun ls : List (List Nat) => values ++ ls.flatten) := by
  induction offs generalizing values with
  | nil =>
      rw [List.mapM_nil]
      show Except.ok values = Except.map _ (Except.ok [])
      simp [Except.map]
  | cons off rest ih =>
      rw [mapM_except_cons]
      simp only [inflate_cols_go]
      cases hc : cols.get? off with
      | none => rfl
      | some col =>
          dsimp only
          cases hv : row.cols col.column_id with
          | some v =>
              dsimp only
              rw [show expandColumn gp enc row col = .ok v from by
                unfold expandColumn; rw [hv]]
              dsimp only
              rw [ih (values ++ v)]
              cases hmm : List.mapM (fun off =>
                  match cols.get? off with
                  | some col => expandColumn gp enc row col
                  | none => Except.error InflateErr.badIndex) rest with
              | error e => rfl
              | ok ls => simp [Except.map, List.append_assoc]
          | none =>
              dsimp only
              rw [show expandColumn gp enc row col =
                  (if col.pk_handle = true then .ok (enc (gp col row.handle))
                   else
                     match col.default_val with
                     | some d => .ok d
                     | none =>
                         if has_not_null_flag col.flag = true then
                           .error (.missingCol col.column_id row.handle)
                         else .ok (enc Datum.null)) from by
                unfold expandColumn; rw [hv]]
              by_cases hpk : col.pk_handle = true
              · rw [if_pos hpk, if_pos hpk]
                rw [ih (values ++ enc (gp col row.handle))]
                cases hmm : List.mapM (fun off =>
                    match cols.get? off with
                    | some col => expandColumn gp enc row col
                    | none => Except.error InflateErr.badIndex) rest with
                | error e => rfl
                | ok ls => simp [Except.map, List.append_assoc]
              · rw [if_neg hpk, if_neg hpk]
                cases hd : col.default_val with
                | some d =>
                    dsimp only
                    rw [ih (values ++ d)]
                    cases hmm : List.mapM (fun off =>
                        match cols.get? off with
                        | some col => expandColumn gp enc row col
                        | none => Except.error InflateErr.badIndex) rest with
                    | error e => rfl
                    | ok ls => simp [Except.map, List.append_assoc]
                | none =>
                    dsimp only
                    by_cases hnn : has_not_null_flag col.flag = true
                    · rw [if_pos hnn, if_pos hnn]
                      rfl
                    · rw [if_neg hnn, if_neg hnn]
                      rw [ih (values ++ enc Datum.null)]
                      cases hmm : List.mapM (fun off =>
                          match cols.get? off with
                          | some col => expandColumn gp enc row col
                          | none => Except.error InflateErr.badIndex) rest with
                      | error e => rfl
                      | ok ls => simp [Except.map, List.append_assoc]

theorem mapM_except_error_iff {α ε β : Type} (f : α → Except ε β) (l : List α) :
    (∃ e, l.mapM f = .error e) ↔ ∃ a ∈ l, ∃ e, f a = .error e := by
  induction l with
  | nil =>
      constructor
      · rintro ⟨e, he⟩
        exact Except.noConfusion he
      · rintro ⟨a, ha, _⟩
        exact absurd ha (List.not_mem_nil a)
  | cons a rest ih =>
      rw [mapM_except_cons]
      cases hf : f a with
      | error e =>
          constructor
          · intro _
            exact ⟨a, List.mem_cons_self a rest, e, hf⟩
          · intro _
            exact ⟨e, rfl⟩
      | ok b =>
          cases hm : rest.mapM f with
          | error e =>
              constructor
              · intro _
                obtain ⟨x, hx, he⟩ := ih.1 ⟨e, hm⟩
                exact ⟨x, List.mem_cons_of_mem a hx, he⟩
              · intro _
                exact ⟨e, rfl⟩
          | ok bs =>
              constructor
              · rintro ⟨e, he⟩
                exact Except.noConfusion he
              · rintro ⟨x, hx, e, he⟩
                rcases List.mem_cons.1 hx with hxa | hxr
                · rw [hxa] at he
                  rw [he] at hf
                  cases hf
                · obtain ⟨e', he'⟩ := ih.2 ⟨x, hxr, e, he⟩
                  rw [he'] at hm
                  cases hm

theorem expandColumn_error_iff (gp : ColumnInfo → Int → Datum)
    (enc : Datum → List Nat) (row : ExecRow) (col : ColumnInfo) :
    (∃ e, expandColumn gp enc row col = .error e) ↔ columnMissing row col := by
  unfold expandColumn columnMissing
  cases hv : row.cols col.column_id with
  | some v => simp
  | none =>
      by_cases hpk : col.pk_handle = true
      · simp [hpk]
      · cases hd : col.default_val with
        | some d => simp [hpk, hd]
        | none =>
            by_cases hnn : has_not_null_flag col.flag = true
            · simp [hpk, hd, hnn]
            · simp [hpk, hd, hnn]

/-- C7: on the non-aggregation path, `inflate_cols` expands each
output row per column with precedence stored value → primary-key
derivation → declared default → encoded null (the whole row being the
concatenation of the per-column expansions), and it fails exactly when
some referenced column is declared NOT NULL and has no stored value,
no primary-key derivation and no default. -/
theorem c7_inflate_cols_precedence (gp : ColumnInfo → Int → Datum)
    (enc : Datum → List Nat) (row : ExecRow) (cols : List ColumnInfo)
    (offs : List Nat) (hvalid : ∀ off ∈ offs, off < cols.length) :
    inflate_cols gp enc row cols offs =
      (offs.mapM (fun off =>
        match cols.get? off with
        | some col => expandColumn gp enc row col
        | none => Except.error InflateErr.badIndex)).map List.flatten ∧
    ((∃ e, inflate_cols gp enc row cols offs = .error e) ↔
      ∃ off ∈ offs, ∃ col, cols.get? off = some col ∧ columnMissing row col) := by
  have heq := inflate_cols_go_eq gp enc row cols offs []
  have hmaperr : ∀ (m : Except InflateErr (List (List Nat)))
      (g : List (List Nat) → List Nat),
      (∃ e, m.map g = .error e) ↔ (∃ e, m = .error e) := by
    intro m g
    cases m <;> simp [Except.map]
  constructor
  · rw [inflate_cols, heq]
    have hfn : (fun ls : List (List Nat) => [] ++ ls.flatten) = List.flatten := by
      funext ls
      simp
    rw [hfn]
  · rw [inflate_cols, heq, hmaperr, mapM_except_error_iff]
    constructor
    · rintro ⟨off, hmem, e, herr⟩
      cases hc : cols.get? off with
      | none =>
          exfalso
          have hlt := hvalid off hmem
          rw [List.get?_eq_getElem?] at hc
          have := List.getElem?_eq_none_iff.1 hc
          omega
      | some col =>
          rw [hc] at herr
          exact ⟨off, hmem, col, hc, (expandColumn_error_iff gp enc row col).1 ⟨e, herr⟩⟩
    · rintro ⟨off, hmem, col, hc, hmiss⟩
      obtain ⟨e, he⟩ := (expandColumn_error_iff gp enc row col).2 hmiss
      exact ⟨off, hmem, e, by rw [hc]; exact he⟩

/-- Witness for C7 on a two-column schema: column 0 has a stored
value, column 1 falls back to its declared default. -/
theorem c7_inflate_cols_precedence_witness :
    inflate_cols (fun _ h => Datum.i64 h) (fun _ => [9])
      { value := [], handle := 5, cols := fun i => if i = 1 then some [1, 2] else none }
      [{ column_id := 1, pk_handle := false, default_val := none, flag := 0 },
       { column_id := 2, pk_handle := false, default_val := some [7], flag := 0 }]
      [0, 1] =
      (([0, 1] : List Nat).mapM (fun off =>
        match ([{ column_id := 1, pk_handle := false, default_val := none, flag := 0 },
                { column_id := 2, pk_handle := false, default_val := some [7],
                  flag := 0 }] : List ColumnInfo).get? off with
        | some col => expandColumn (fun _ h => Datum.i64 h) (fun _ => [9])
            { value := [], handle := 5
              cols := fun i => if i = 1 then some [1, 2] else none } col
        | none => Except.error InflateErr.badIndex)).map List.flatten ∧
    ((∃ e, inflate_cols (fun _ h => Datum.i64 h) (fun _ => [9])
        { value := [], handle := 5, cols := fun i => if i = 1 then some [1, 2] else none }
        [{ column_id := 1, pk_handle := false, default_val := none, flag := 0 },
         { column_id := 2, pk_handle := false, default_val := some [7], flag := 0 }]
        [0, 1] = .error e) ↔
      ∃ off ∈ ([0, 1] : List Nat), ∃ col,
        ([{ column_id := 1, pk_handle := false, default_val := none, flag := 0 },
          { column_id := 2, pk_handle := false, default_val := some [7],
            flag := 0 }] : List ColumnInfo).get? off = some col ∧
        columnMissing
          { value := [], handle := 5, cols := fun i => if i = 1 then some [1, 2] else none }
          col) :=
  c7_inflate_cols_precedence _ _ _ _ _ (by decide)

theorem can_cache_of_with_size (ctx : DAGContext) (data : List Nat)
    (h : ctx.can_cache_with_size data = true) : ctx.can_cache = true := by
  unfold DAGContext.can_cache_with_size at h
  by_cases hl : data.length > 5 * 1024 * 1024
  · rw [if_pos hl] at h
    cases h
  · rw [if_neg hl] at h
    exact h

/-- C5: for a request that is not served from the cache and whose
executor chain terminates normally, the serialized response bytes are
stored into the result cache iff the plan is cacheable (cache enabled
and an aggregation or top-N stage present) and the serialized size is
at most 5 MiB; every store is keyed with the region version token
captured at lookup time, before execution began. -/
theorem c5_cache_store_admission (ctx : DAGContext)
    (ser : List (List Nat) → List Nat) (serErr : List Nat)
    (get_pk : ColumnInfo → Int → Datum) (encode : Datum → List Nat)
    (cache : DistSqlCache) (region_id : Nat) (rows : List ExecRow)
    (resp : Response) (st : Option StoreCall)
    (hmiss : cache.get region_id ctx.cache_key = none)
    (hok : ctx.handle_request ser serErr get_pk encode cache region_id false rows
        ExecEnd.finished = .ok (resp, st)) :
    (st.isSome = true ↔ ctx.can_cache_with_size resp.data = true) ∧
    (∀ sc, st = some sc →
        sc = { region_id := region_id, key := ctx.cache_key
               version := cache.get_region_version region_id, data := resp.data }) := by
  unfold DAGContext.handle_request at hok
  have hlook : (if ctx.can_cache then cache.get region_id ctx.cache_key else none) =
      none := by
    by_cases h : ctx.can_cache = true
    · rw [if_pos h]
      exact hmiss
    · rw [if_neg h]
  rw [hlook] at hok
  dsimp only at hok
  cases hb : buildChunks ctx get_pk encode false rows [] 0 with
  | error e =>
      rw [hb] at hok
      cases hok
  | ok chunks =>
      rw [hb] at hok
      dsimp only at hok
      by_cases hcs : ctx.can_cache_with_size (ser chunks) = true
      · rw [if_pos hcs] at hok
        have hcc := can_cache_of_with_size ctx (ser chunks) hcs
        rw [Except.ok.injEq, Prod.mk.injEq] at hok
        obtain ⟨hresp, hst⟩ := hok
        subst hresp
        subst hst
        constructor
        · simpa using hcs
        · intro sc hsc
          rw [Option.some.injEq] at hsc
          rw [← hsc, if_pos hcc]
      · rw [if_neg hcs] at hok
        rw [Except.ok.injEq, Prod.mk.injEq] at hok
        obtain ⟨hresp, hst⟩ := hok
        subst hresp
        subst hst
        constructor
        · simpa using hcs
        · intro sc hsc
          cases hsc

/-- Witness for C5: a cacheable plan (`has_aggr`), empty executor
output, a missing cache entry and region version 7; the empty
response is stored, keyed with version 7. -/
theorem c5_cache_store_admission_witness :
    (((some { region_id := 1, key := "k", version := 7
              data := ([] : List (List Nat)).flatten } : Option StoreCall)).isSome = true ↔
      ({ columns := [], has_aggr := true, has_topn := false, output_offsets := []
         batch_row_limit := 1, cache_key := "k"
         enable_distsql_cache := true } : DAGContext).can_cache_with_size
        ({ data := ([] : List (List Nat)).flatten, other_error := false } : Response).data
          = true) ∧
    (∀ sc, (some { region_id := 1, key := "k", version := 7
                   data := ([] : List (List Nat)).flatten } : Option StoreCall) = some sc →
        sc = { region_id := 1, key := "k"
               version := ({ get_region_version := fun _ => 7
                             get := fun _ _ => none } : DistSqlCache).get_region_version 1
               data := ({ data := ([] : List (List Nat)).flatten
                          other_error := false } : Response).data }) :=
  c5_cache_store_admission
    { columns := [], has_aggr := true, has_topn := false, output_offsets := []
      batch_row_limit := 1, cache_key := "k", enable_distsql_cache := true }
    (fun chunks => chunks.flatten) [] (fun _ h => Datum.i64 h) (fun _ => [])
    { get_region_version := fun _ => 7, get := fun _ _ => none } 1 []
    { data := ([] : List (List Nat)).flatten, other_error := false }
    (some { region_id := 1, key := "k", version := 7
            data := ([] : List (List Nat)).flatten })
    rfl rfl

/-- Witness for C9 at cap 1 with two appended warnings: the count is
exact (2), the retained list is capped at 1 entry, and count and list
length diverge. -/
theorem c9_warning_count_exact_and_capped_witness :
    (((WarnTree.leaf.app 0).app 0 : WarnTree Nat).eval 1).warning_cnt =
      ((WarnTree.leaf.app 0).app 0 : WarnTree Nat).encountered ∧
    (((WarnTree.leaf.app 0).app 0 : WarnTree Nat).eval 1).warnings.length ≤ 1 ∧
    (1 < ((WarnTree.leaf.app 0).app 0 : WarnTree Nat).encountered →
      (((WarnTree.leaf.app 0).app 0 : WarnTree Nat).eval 1).warnings.length <
        (((WarnTree.leaf.app 0).app 0 : WarnTree Nat).eval 1).warning_cnt) :=
  c9_warning_count_exact_and_capped 1 ((WarnTree.leaf.app 0).app 0)

end TiKV
